import Mathlib

/-!
Verification of the substring-search strategies and benchmark harness of
`examples/simplegrep.c`.

Modelling conventions (shallow embedding):
* A byte buffer (`const char *inputData` plus its `unsigned int length`) is a
  `List Nat` of byte values; `length` is the list's length.  `length` fits in
  an `unsigned int`, so it is `< 2^64` in every real run.
* The pattern (a NUL-terminated C string) is a `List Nat` of its bytes, so
  `strlen(pattern)` is the list's length.
* `size_t` arithmetic wraps modulo `2^64`; the wrap matters only for the
  outer-loop bound `length - (plen - 1)`, modelled by `loopBound`.
* Out-of-bounds byte reads are modelled by `List.getD _ _ 0`; every claim that
  executes a scan keeps all reads in bounds.
* The global hit counter `gsHint` (an `int`) is passed explicitly: a strategy
  is a function from the incoming `gsHint` to `(outgoing gsHint, return value)`.
-/

namespace Simplegrep

/-- `2^64`, the modulus of C `size_t` arithmetic on the reference target. -/
def SIZE_MOD : Nat := 2 ^ 64

/-- C `size_t` subtraction `a - b`, wrapping modulo `2^64`. -/
def sizeSub (a b : Nat) : Nat :=
  (a % SIZE_MOD + (SIZE_MOD - b % SIZE_MOD)) % SIZE_MOD

/-- The outer-loop bound `length - (plen - 1)` of `rookieScanMethod` (line 214)
and `myBMScanMethod` (line 240), computed in `size_t` arithmetic. -/
def loopBound (length plen : Nat) : Nat := sizeSub length (sizeSub plen 1)

/-- `eventHandler` (simplegrep.c lines 75-80): ignores every argument of the
match event, increments the global counter `gsHint`, and returns 0 (a nonzero
return would ask the engine to stop scanning).  State-passing form: the last
argument is the incoming `gsHint`, the result is `(new gsHint, return value)`. -/
def eventHandler (id frm toOff flags : Nat) (gsHint : Int) : Int × Int :=
  (gsHint + 1, 0)

/-- Deliver a list of match events (their third, offset argument) to
`eventHandler` in order, threading `gsHint` through. -/
def deliverAll (events : List Nat) (gsHint : Int) : Int :=
  events.foldl (fun g e => (eventHandler 0 0 e 0 g).1) gsHint

/-- The inner comparison loop of `rookieScanMethod` (lines 217-229): `j` counts
up from its current value; on the first mismatching byte the loop breaks with
no event; when `j` reaches `plen - 1` with all bytes equal, the event
`eventHandler(0, 0, i, 0, pattern)` fires (returned as `some i`).  `fuel` is
the structural-recursion budget; `fuel ≥ plen - j` covers the whole loop. -/
def rookieInner (inputData pattern : List Nat) (i j : Nat) : Nat → Option Nat
  | 0 => none
  | fuel + 1 =>
    if j < pattern.length then
      if pattern.getD j 0 ≠ inputData.getD (i + j) 0 then none
      else if j = pattern.length - 1 then some i
      else rookieInner inputData pattern i (j + 1) fuel
    else none

/-- The outer loop of `rookieScanMethod`, running `n` iterations starting at
offset `i`; collects the offsets passed to `eventHandler`, in order. -/
def rookieLoop (inputData pattern : List Nat) (i : Nat) : Nat → List Nat
  | 0 => []
  | n + 1 =>
    (match rookieInner inputData pattern i 0 pattern.length with
     | some e => [e]
     | none => []) ++ rookieLoop inputData pattern (i + 1) n

/-- The offsets `rookieScanMethod` passes to `eventHandler` (as the third
argument of the call at line 226), in delivery order. -/
def rookieEvents (inputData pattern : List Nat) : List Nat :=
  rookieLoop inputData pattern 0 (loopBound inputData.length pattern.length)

/-- `rookieScanMethod` (lines 209-233): sets `gsHint = 0` (line 213), runs the
nested scan delivering each hit to `eventHandler`, and returns 0. -/
def rookieScanMethod (inputData pattern : List Nat) (gsHint : Int) : Int × Int :=
  (deliverAll (rookieEvents inputData pattern) 0, 0)

/-- The inner comparison loop of `myBMScanMethod` (lines 244-257): identical to
the rookie inner loop except that the hit action is `tmpHint[j]++`; on a hit it
returns the lane index `j` that is written. -/
def myBMInner (inputData pattern : List Nat) (i j : Nat) : Nat → Option Nat
  | 0 => none
  | fuel + 1 =>
    if j < pattern.length then
      if pattern.getD j 0 ≠ inputData.getD (i + j) 0 then none
      else if j = pattern.length - 1 then some j
      else myBMInner inputData pattern i (j + 1) fuel
    else none

/-- The outer loop of `myBMScanMethod` (lines 240-258): the list of `tmpHint`
lane indices written by `tmpHint[j]++`, in order. -/
def myBMLoop (inputData pattern : List Nat) (i : Nat) : Nat → List Nat
  | 0 => []
  | n + 1 =>
    (match myBMInner inputData pattern i 0 pattern.length with
     | some j => [j]
     | none => []) ++ myBMLoop inputData pattern (i + 1) n

/-- All `tmpHint` lane indices `myBMScanMethod` increments during one run. -/
def myBMWrites (inputData pattern : List Nat) : List Nat :=
  myBMLoop inputData pattern 0 (loopBound inputData.length pattern.length)

/-- The value a C `char` lane holds after `c` increments from zero: the count
wraps modulo 256 and is read back in two's complement (`char` is signed on the
reference target; for a lane value below 128 the signedness is irrelevant). -/
def charVal (c : Nat) : Int :=
  if c % 256 < 128 then (c % 256 : Nat) else (c % 256 : Nat) - 256

/-- The final value of lane `j` of `tmpHint` (declared `char tmpHint[16]` at
line 238, zero-initialized) after the scan loop of `myBMScanMethod`. -/
def tmpHintFinal (inputData pattern : List Nat) (j : Nat) : Int :=
  charVal ((myBMWrites inputData pattern).count j)

/-- `myBMScanMethod` (lines 235-267): accumulates hits in the 16 `char` lanes
of `tmpHint`, then adds the 16 lane values to `gsHint` (lines 260-264); it does
not reset `gsHint`; returns 0. -/
def myBMScanMethod (inputData pattern : List Nat) (gsHint : Int) : Int × Int :=
  ((List.range 16).foldl (fun g j => g + tmpHintFinal inputData pattern j) gsHint, 0)

/-- The loop of `memScanMethod` (lines 272-278), running `n` iterations from
offset `i`: an event fires at each `i` with `pattern[0] == inputData[i]`. -/
def memScanLoop (inputData pattern : List Nat) (i : Nat) : Nat → List Nat
  | 0 => []
  | n + 1 =>
    (if pattern.getD 0 0 = inputData.getD i 0 then [i] else []) ++
      memScanLoop inputData pattern (i + 1) n

/-- The offsets `memScanMethod` passes to `eventHandler`, in order. -/
def memScanEvents (inputData pattern : List Nat) : List Nat :=
  memScanLoop inputData pattern 0 inputData.length

/-- `memScanMethod` (lines 269-281): first-byte-only scan; does not reset
`gsHint`; returns 0. -/
def memScanMethod (inputData pattern : List Nat) (gsHint : Int) : Int × Int :=
  (deliverAll (memScanEvents inputData pattern) gsHint, 0)

/-- `paraScanMethod` (lines 283-286): does nothing and returns 0. -/
def paraScanMethod (inputData pattern : List Nat) (gsHint : Int) : Int × Int :=
  (gsHint, 0)

/-- `hyperScanMethod` (lines 153-207).  The external engine (`hs_compile`,
`hs_alloc_scratch`, `hs_scan`) is not part of this repository; it is abstracted
by whether the pattern compiles (`compileOk`) and by how many match events the
engine delivers to `eventHandler` (`engineMatches`).  On compile failure the
method returns -1 without scanning (lines 165-171); on success it returns the
`hs_scan` result, 0 when the scan succeeds (line 196). -/
def hyperScanMethod (compileOk : Bool) (engineMatches : Nat) (gsHint : Int) :
    Int × Int :=
  if compileOk then (gsHint + engineMatches, 0) else (gsHint, -1)

/-- One report line printed by the harness (line 345): strategy name, whether
the status cell shows `DONE` (it shows `ERROR` otherwise), and the hit count
printed (the value of `gsHint` after the strategy ran). -/
structure Report where
  name : String
  statusDone : Bool
  hits : Int

/-- `testFuncArr` (lines 298-305): the strategy registry in declaration order.
The buffer and pattern are fixed for the whole run, so each registered entry is
the strategy applied to them, as a function of the incoming `gsHint`. -/
def testFuncArr (inputData pattern : List Nat) (hsCompileOk : Bool)
    (hsMatches : Nat) : List (String × (Int → Int × Int)) :=
  [("allMemScan", memScanMethod inputData pattern),
   ("hyperScan", hyperScanMethod hsCompileOk hsMatches),
   ("rookieScan", rookieScanMethod inputData pattern),
   ("myBMScanMethod", myBMScanMethod inputData pattern),
   ("myScan", paraScanMethod inputData pattern)]

/-- The harness loop of `main` (lines 335-346): `ret` is initialized to 0 at
line 313 and never reassigned — the strategy's return value at line 341 is
discarded.  Each iteration sets `gsHint = 0`, runs the strategy, and prints the
line `(name, ret == HS_SUCCESS ? "DONE" : "ERROR", gsHint)`.  Returns the
report lines together with `main`'s return value `ret` (line 349). -/
def runHarness (registry : List (String × (Int → Int × Int))) :
    List Report × Int :=
  let ret : Int := 0
  (registry.map (fun entry =>
    { name := entry.1, statusDone := ret == 0, hits := (entry.2 0).1 }), ret)

/-- Hit count printed for `rookieScanMethod` when run from a zeroed counter. -/
def rookieHits (inputData pattern : List Nat) : Int :=
  (rookieScanMethod inputData pattern 0).1

/-- Hit count printed for `myBMScanMethod` when run from a zeroed counter. -/
def myBMHits (inputData pattern : List Nat) : Int :=
  (myBMScanMethod inputData pattern 0).1

/-- Hit count printed for `memScanMethod` when run from a zeroed counter. -/
def memHits (inputData pattern : List Nat) : Int :=
  (memScanMethod inputData pattern 0).1

/-- Specification predicate: the pattern occurs in the buffer starting at
offset `i` (byte-for-byte equality of `pattern[0..plen)` with
`inputData[i..i+plen)`). -/
def matchAt (inputData pattern : List Nat) (i : Nat) : Prop :=
  ∀ j < pattern.length, pattern.getD j 0 = inputData.getD (i + j) 0

instance (inputData pattern : List Nat) (i : Nat) :
    Decidable (matchAt inputData pattern i) := by
  unfold matchAt; infer_instance

/-! ### Helper lemmas (shared across the claim theorems) -/

/-- Delivering `n` events to `eventHandler` adds exactly `n` to the counter. -/
theorem deliverAll_eq (events : List Nat) : ∀ g : Int,
    deliverAll events g = g + events.length := by
  induction events with
  | nil => intro g; simp [deliverAll]
  | cons e es ih =>
    intro g
    have h := ih (g + 1)
    simp only [deliverAll, List.foldl_cons, eventHandler] at h ⊢
    rw [h, List.length_cons]
    push_cast
    ring

/-- `size_t` subtraction agrees with `Nat` subtraction when it cannot wrap. -/
theorem sizeSub_eq (a b : Nat) (hb : b ≤ a) (ha : a < 2 ^ 64) :
    sizeSub a b = a - b := by
  have hM : (2 : Nat) ^ 64 = 18446744073709551616 := by norm_num
  unfold sizeSub SIZE_MOD
  rw [hM] at ha ⊢
  omega

/-- For a nonempty pattern no longer than the buffer, the outer-loop bound is
the exact count of candidate start offsets, `L - P + 1`. -/
theorem loopBound_eq (L P : Nat) (hp : 1 ≤ P) (hl : P ≤ L) (hL : L < 2 ^ 64) :
    loopBound L P = L - P + 1 := by
  unfold loopBound
  rw [sizeSub_eq P 1 hp (lt_of_le_of_lt hl hL),
      sizeSub_eq L (P - 1) (by omega) hL]
  omega

/-- Characterization of the rookie inner loop: started at position `j` with
enough fuel, it yields the event `some i` exactly when every pattern byte from
`j` on matches the buffer. -/
theorem rookieInner_eq (inputData pattern : List Nat) (i : Nat) :
    ∀ fuel j, pattern.length ≤ j + fuel →
      rookieInner inputData pattern i j fuel =
        if j < pattern.length ∧
            ∀ k < pattern.length, j ≤ k →
              pattern.getD k 0 = inputData.getD (i + k) 0
        then some i else none := by
  intro fuel
  induction fuel with
  | zero =>
    intro j hj
    have hjp : ¬ j < pattern.length := by omega
    simp [rookieInner, hjp]
  | succ fuel ih =>
    intro j hj
    by_cases hjp : j < pattern.length
    · by_cases heq : pattern.getD j 0 = inputData.getD (i + j) 0
      · by_cases hlast : j = pattern.length - 1
        · have hcond : j < pattern.length ∧
              ∀ k < pattern.length, j ≤ k →
                pattern.getD k 0 = inputData.getD (i + k) 0 := by
            refine ⟨hjp, fun k hk hjk => ?_⟩
            have hkj : k = j := by omega
            rw [hkj]; exact heq
          simp only [rookieInner]
          rw [if_pos hjp, if_neg (by simpa using heq), if_pos hlast,
              if_pos hcond]
        · have hrec := ih (j + 1) (by omega)
          simp only [rookieInner]
          rw [if_pos hjp, if_neg (by simpa using heq), if_neg hlast, hrec]
          have hiff : (j + 1 < pattern.length ∧
                ∀ k < pattern.length, j + 1 ≤ k →
                  pattern.getD k 0 = inputData.getD (i + k) 0) ↔
              (j < pattern.length ∧
                ∀ k < pattern.length, j ≤ k →
                  pattern.getD k 0 = inputData.getD (i + k) 0) := by
            constructor
            · rintro ⟨h1, h2⟩
              refine ⟨hjp, fun k hk hjk => ?_⟩
              rcases Nat.eq_or_lt_of_le hjk with hkj | hkj
              · rw [← hkj]; exact heq
              · exact h2 k hk (by omega)
            · rintro ⟨h1, h2⟩
              exact ⟨by omega, fun k hk hk1 => h2 k hk (by omega)⟩
          rw [if_congr hiff rfl rfl]
      · have hcond : ¬(j < pattern.length ∧
            ∀ k < pattern.length, j ≤ k →
              pattern.getD k 0 = inputData.getD (i + k) 0) := by
          rintro ⟨h1, h2⟩
          exact heq (h2 j hjp le_rfl)
        simp only [rookieInner]
        rw [if_pos hjp, if_pos (by simpa using heq), if_neg hcond]
    · simp [rookieInner, hjp]

/-- The rookie outer loop collects exactly the matching start offsets among
its `n` candidate offsets `i, i+1, …, i+n-1`, in increasing order. -/
theorem rookieLoop_eq (inputData pattern : List Nat) (hp : 1 ≤ pattern.length) :
    ∀ n i, rookieLoop inputData pattern i n =
      (List.range' i n).filter fun x => decide (matchAt inputData pattern x) := by
  intro n
  induction n with
  | zero => intro i; simp [rookieLoop]
  | succ n ih =>
    intro i
    have hinner := rookieInner_eq inputData pattern i pattern.length 0 (by omega)
    have hcond : (0 < pattern.length ∧
        ∀ k < pattern.length, 0 ≤ k →
          pattern.getD k 0 = inputData.getD (i + k) 0) ↔
        matchAt inputData pattern i := by
      unfold matchAt
      constructor
      · rintro ⟨-, h⟩ k hk
        exact h k hk (Nat.zero_le k)
      · intro h
        exact ⟨hp, fun k hk _ => h k hk⟩
    simp only [rookieLoop]
    rw [hinner, List.range'_succ, List.filter_cons, ih (i + 1)]
    by_cases hm : matchAt inputData pattern i
    · rw [if_pos (hcond.mpr hm)]
      simp [hm]
    · rw [if_neg (fun hc => hm (hcond.mp hc))]
      simp [hm]

/-- The events of `rookieScanMethod`, for a nonempty pattern that fits in the
buffer: exactly the matching start offsets in `[0, L - P]`, in order. -/
theorem rookieEvents_eq (inputData pattern : List Nat)
    (hp : 1 ≤ pattern.length) (hl : pattern.length ≤ inputData.length)
    (hL : inputData.length < 2 ^ 64) :
    rookieEvents inputData pattern =
      (List.range (inputData.length - pattern.length + 1)).filter
        fun x => decide (matchAt inputData pattern x) := by
  unfold rookieEvents
  rw [loopBound_eq _ _ hp hl hL, rookieLoop_eq _ _ hp, List.range_eq_range']

/-- The memScan loop collects exactly the offsets among `i, …, i+n-1` whose
byte equals the pattern's first byte. -/
theorem memScanLoop_eq (inputData pattern : List Nat) :
    ∀ n i, memScanLoop inputData pattern i n =
      (List.range' i n).filter
        fun x => decide (pattern.getD 0 0 = inputData.getD x 0) := by
  intro n
  induction n with
  | zero => intro i; simp [memScanLoop]
  | succ n ih =>
    intro i
    simp only [memScanLoop]
    rw [List.range'_succ, List.filter_cons, ih (i + 1)]
    by_cases hm : pattern.getD 0 0 = inputData.getD i 0
    · rw [if_pos hm, if_pos (by simpa using hm)]; simp
    · rw [if_neg hm, if_neg (by simpa using hm)]; simp

/-- The events of `memScanMethod`: all buffer positions holding the pattern's
first byte, in order. -/
theorem memScanEvents_eq (inputData pattern : List Nat) :
    memScanEvents inputData pattern =
      (List.range inputData.length).filter
        fun x => decide (pattern.getD 0 0 = inputData.getD x 0) := by
  unfold memScanEvents
  rw [memScanLoop_eq, List.range_eq_range']

/-- Counting positions of a list whose element satisfies `q` equals counting
the elements satisfying `q`. -/
theorem countP_range_getD (q : Nat → Bool) :
    ∀ l : List Nat,
      ((List.range l.length).countP fun i => q (l.getD i 0)) = l.countP q := by
  intro l
  induction l with
  | nil => simp
  | cons a t ih =>
    rw [List.length_cons, List.range_succ_eq_map, List.countP_cons,
        List.countP_map, List.countP_cons]
    have h1 : ((fun i => q ((a :: t).getD i 0)) ∘ Nat.succ) =
        fun i => q (t.getD i 0) := by
      funext i
      simp [Function.comp]
    rw [h1, ih]
    simp [Nat.add_comm]

/-- Every hit of the myBM inner loop writes lane `pattern.length - 1`. -/
theorem myBMInner_some (inputData pattern : List Nat) (i : Nat) :
    ∀ fuel j idx, myBMInner inputData pattern i j fuel = some idx →
      idx = pattern.length - 1 := by
  intro fuel
  induction fuel with
  | zero => intro j idx h; simp [myBMInner] at h
  | succ fuel ih =>
    intro j idx h
    simp only [myBMInner] at h
    by_cases h1 : j < pattern.length
    · rw [if_pos h1] at h
      by_cases h2 : pattern.getD j 0 ≠ inputData.getD (i + j) 0
      · rw [if_pos h2] at h; cases h
      · rw [if_neg h2] at h
        by_cases h3 : j = pattern.length - 1
        · rw [if_pos h3] at h
          cases h
          exact h3
        · rw [if_neg h3] at h
          exact ih (j + 1) idx h
    · rw [if_neg h1] at h; cases h

/-- Every lane index collected by the myBM outer loop is `pattern.length - 1`. -/
theorem myBMLoop_mem (inputData pattern : List Nat) :
    ∀ n i idx, idx ∈ myBMLoop inputData pattern i n →
      idx = pattern.length - 1 := by
  intro n
  induction n with
  | zero => intro i idx h; simp [myBMLoop] at h
  | succ n ih =>
    intro i idx h
    simp only [myBMLoop, List.mem_append] at h
    rcases h with h | h
    · cases hm : myBMInner inputData pattern i 0 pattern.length with
      | none => rw [hm] at h; simp at h
      | some j =>
        rw [hm] at h
        simp at h
        rw [h]
        exact myBMInner_some inputData pattern i pattern.length 0 j hm
    · exact ih (i + 1) idx h

/-! ### Claim theorems -/

set_option maxRecDepth 4000

/-- C1: the claim states that for every buffer and nonempty pattern with
`L ≥ P` the hit counts of `rookieScanMethod` and `myBMScanMethod` agree.  The
code violates it: `tmpHint` is an array of 8-bit `char` lanes, so a lane
holding 256 increments wraps to 0.  On a buffer of 256 `'a'` bytes with
pattern `"a"` (`P = 1 ≤ L = 256`), `rookieScanMethod` reports 256 hits while
`myBMScanMethod` adds `256 mod 256 = 0` to the counter. -/
theorem myBM_char_overflow :
    rookieHits (List.replicate 256 97) [97] = 256 ∧
    myBMHits (List.replicate 256 97) [97] = 0 := by
  decide

/-- C2: the claim states that for `P > L ≥ 1` the outer iteration range is
empty and `length - (plen - 1)` does not yield a huge iteration count.  The
`size_t` computation (lines 214 and 240) underflows whenever `P ≥ L + 2`: for
`L = 1, P = 3` the bound is `2^64 - 1`, a non-empty, huge iteration range
(only the boundary case `P = L + 1`, e.g. `L = 1, P = 2`, gives 0). -/
theorem loopBound_underflow :
    loopBound 1 3 = 2 ^ 64 - 1 ∧ loopBound 1 3 ≠ 0 ∧ loopBound 1 2 = 0 := by
  refine ⟨by decide, ?_, by decide⟩
  intro h
  have h2 : loopBound 1 3 = 2 ^ 64 - 1 := by decide
  rw [h] at h2
  exact absurd h2.symm (by norm_num)

/-- C3 counterexample: the claim states that each match event carries the end
offset `i + P - 1`, with offsets 2, 4, 6 for buffer `"abababab"` and pattern
`"aba"`.  The call at line 226 passes the start offset `i`: the events carry
0, 2, 4, not 2, 4, 6. -/
theorem rookie_offsets_counterexample :
    rookieEvents [97, 98, 97, 98, 97, 98, 97, 98] [97, 98, 97] = [0, 2, 4] ∧
    rookieEvents [97, 98, 97, 98, 97, 98, 97, 98] [97, 98, 97] ≠ [2, 4, 6] := by
  decide

/-- C3 (amended): every match event delivered by the brute-force scan carries
the occurrence's start offset `i` (the index of the first matching byte), not
the end offset; scanning `"abababab"` for `"aba"` delivers events with offsets
0, 2 and 4. -/
theorem rookie_offsets_are_starts (inputData pattern : List Nat)
    (hp : 1 ≤ pattern.length) (hl : pattern.length ≤ inputData.length)
    (hL : inputData.length < 2 ^ 64) :
    (∀ e ∈ rookieEvents inputData pattern,
        matchAt inputData pattern e ∧
        e + pattern.length ≤ inputData.length) ∧
    rookieEvents [97, 98, 97, 98, 97, 98, 97, 98] [97, 98, 97] = [0, 2, 4] := by
  refine ⟨?_, by decide⟩
  intro e he
  rw [rookieEvents_eq inputData pattern hp hl hL] at he
  rw [List.mem_filter, List.mem_range] at he
  exact ⟨of_decide_eq_true he.2, by omega⟩

/-- Witness for C3's amended theorem at buffer `"abababab"`, pattern `"aba"`,
event offset 2. -/
theorem rookie_offsets_are_starts_witness :
    matchAt [97, 98, 97, 98, 97, 98, 97, 98] [97, 98, 97] 2 ∧
    2 + ([97, 98, 97] : List Nat).length ≤
      ([97, 98, 97, 98, 97, 98, 97, 98] : List Nat).length :=
  (rookie_offsets_are_starts [97, 98, 97, 98, 97, 98, 97, 98] [97, 98, 97]
    (by decide) (by decide) (by decide)).1 2 (by decide)

/-- C4: the claim states that a failing strategy (e.g. `hyperScanMethod`
returning -1 on a pattern-compile failure) gets an `ERROR` status on its
report line while the harness still runs the rest and exits 0.  The code does
keep running and exits 0, but `main` discards the strategy's return value
(line 341), so `ret` stays 0 and every line — the failing strategy's line
included — prints `DONE`. -/
theorem harness_ignores_strategy_failure :
    (hyperScanMethod false 0 0).2 = -1 ∧
    ((runHarness (testFuncArr [97] [40] false 0)).1.map
        (fun r => (r.name, r.statusDone))) =
      [("allMemScan", true), ("hyperScan", true), ("rookieScan", true),
       ("myBMScanMethod", true), ("myScan", true)] ∧
    (runHarness (testFuncArr [97] [40] false 0)).2 = 0 := by
  decide

/-- C5: for `1 ≤ P ≤ L`, `rookieScanMethod` delivers exactly one match event
per matching start offset in `[0, L - P]`, in increasing order (so overlapping
occurrences are all reported and the scan resumes at `i + 1`); scanning
`"aaa"` for `"aa"` yields exactly 2 events. -/
theorem rookie_scan_correct (inputData pattern : List Nat)
    (hp : 1 ≤ pattern.length) (hl : pattern.length ≤ inputData.length)
    (hL : inputData.length < 2 ^ 64) :
    rookieEvents inputData pattern =
      (List.range (inputData.length - pattern.length + 1)).filter
        (fun i => decide (matchAt inputData pattern i)) ∧
    (∀ i, (rookieEvents inputData pattern).count i =
      if i + pattern.length ≤ inputData.length ∧ matchAt inputData pattern i
      then 1 else 0) ∧
    (rookieEvents [97, 97, 97] [97, 97]).length = 2 := by
  have hev := rookieEvents_eq inputData pattern hp hl hL
  refine ⟨hev, ?_, by decide⟩
  intro i
  have hnd : (((List.range (inputData.length - pattern.length + 1)).filter
      (fun x => decide (matchAt inputData pattern x)))).Nodup :=
    (List.nodup_range _).filter _
  by_cases hc : i + pattern.length ≤ inputData.length ∧
      matchAt inputData pattern i
  · have hmem : i ∈ (List.range (inputData.length - pattern.length + 1)).filter
        (fun x => decide (matchAt inputData pattern x)) := by
      rw [List.mem_filter, List.mem_range]
      exact ⟨by omega, decide_eq_true hc.2⟩
    rw [hev, if_pos hc]
    exact List.count_eq_one_of_mem hnd hmem
  · have hmem : i ∉ (List.range (inputData.length - pattern.length + 1)).filter
        (fun x => decide (matchAt inputData pattern x)) := by
      rw [List.mem_filter, List.mem_range]
      rintro ⟨h1, h2⟩
      exact hc ⟨by omega, of_decide_eq_true h2⟩
    rw [hev, if_neg hc]
    exact List.count_eq_zero_of_not_mem hmem

/-- Witness for C5 at buffer `"aaa"`, pattern `"aa"`, offset 1. -/
theorem rookie_scan_correct_witness :
    (rookieEvents [97, 97, 97] [97, 97]).count 1 =
      (if 1 + ([97, 97] : List Nat).length ≤ ([97, 97, 97] : List Nat).length ∧
          matchAt [97, 97, 97] [97, 97] 1 then 1 else 0) ∧
    (rookieEvents [97, 97, 97] [97, 97]).length = 2 :=
  ⟨(rookie_scan_correct [97, 97, 97] [97, 97]
      (by decide) (by decide) (by decide)).2.1 1,
   (rookie_scan_correct [97, 97, 97] [97, 97]
      (by decide) (by decide) (by decide)).2.2⟩

/-- C6: `memScanMethod` fires exactly one event at each buffer position
holding the pattern's first byte, so its hit count is the number of
occurrences of that byte in the buffer. -/
theorem memScan_first_byte_only (inputData pattern : List Nat)
    (hp : pattern ≠ []) :
    memScanEvents inputData pattern =
      (List.range inputData.length).filter
        (fun i => decide (pattern.getD 0 0 = inputData.getD i 0)) ∧
    memHits inputData pattern = (inputData.count (pattern.getD 0 0) : Int) := by
  refine ⟨memScanEvents_eq _ _, ?_⟩
  unfold memHits memScanMethod
  rw [deliverAll_eq, memScanEvents_eq, ← List.countP_eq_length_filter]
  have h := countP_range_getD (fun c => decide (pattern.getD 0 0 = c)) inputData
  rw [h, List.count_eq_countP]
  have hpt : inputData.countP (fun c => decide (pattern.getD 0 0 = c)) =
      inputData.countP (fun c => c == pattern.getD 0 0) := by
    apply List.countP_congr
    intro c _
    by_cases hcc : pattern.getD 0 0 = c
    · subst hcc; simp
    · constructor
      · intro hd
        exact absurd (of_decide_eq_true hd) hcc
      · intro hb
        exact absurd (eq_of_beq hb).symm hcc
  rw [hpt]
  simp

/-- Witness for C6 at buffer `"aba"`, pattern `"ac"`. -/
theorem memScan_first_byte_only_witness :
    memScanEvents [97, 98, 97] [97, 99] =
      (List.range ([97, 98, 97] : List Nat).length).filter
        (fun i => decide (([97, 99] : List Nat).getD 0 0 =
          ([97, 98, 97] : List Nat).getD i 0)) ∧
    memHits [97, 98, 97] [97, 99] =
      (([97, 98, 97] : List Nat).count (([97, 99] : List Nat).getD 0 0) : Int) :=
  memScan_first_byte_only [97, 98, 97] [97, 99] (by decide)

/-- C7: for a pattern of length exactly 1 and a nonempty buffer, the hit count
of `memScanMethod` equals the hit count of `rookieScanMethod`. -/
theorem memScan_rookie_len1_agree (inputData pattern : List Nat)
    (hp : pattern.length = 1) (hb : 1 ≤ inputData.length)
    (hL : inputData.length < 2 ^ 64) :
    memHits inputData pattern = rookieHits inputData pattern := by
  have hre := rookieEvents_eq inputData pattern (by omega) (by omega) hL
  have heq : rookieEvents inputData pattern = memScanEvents inputData pattern := by
    rw [hre, memScanEvents_eq]
    have hLL : inputData.length - pattern.length + 1 = inputData.length := by
      omega
    rw [hLL]
    apply List.filter_congr
    intro x _
    have hiff : matchAt inputData pattern x ↔
        pattern.getD 0 0 = inputData.getD x 0 := by
      unfold matchAt
      rw [hp]
      constructor
      · intro h
        simpa using h 0 (by omega)
      · intro h j hj
        have hj0 : j = 0 := by omega
        subst hj0
        simpa using h
    simp [decide_eq_decide, hiff]
  unfold memHits rookieHits memScanMethod rookieScanMethod
  rw [deliverAll_eq, deliverAll_eq, heq]

/-- Witness for C7 at buffer `"aba"`, pattern `"a"`. -/
theorem memScan_rookie_len1_agree_witness :
    memHits [97, 98, 97] [97] = rookieHits [97, 98, 97] [97] :=
  memScan_rookie_len1_agree [97, 98, 97] [97] (by decide) (by decide) (by decide)

/-- C8: each harness iteration resets `gsHint` to 0 before invoking the
strategy and reads it once afterwards for the report line, so every printed
hit count is the count of events of that strategy's own run alone (started
from a zero counter); the strategies run and report in registry insertion
order: allMemScan, hyperScan, rookieScan, myBMScanMethod, myScan. -/
theorem harness_reset_and_order (inputData pattern : List Nat)
    (hsOk : Bool) (hsMatches : Nat) :
    (runHarness (testFuncArr inputData pattern hsOk hsMatches)).1.map
        (fun r => (r.name, r.hits)) =
      [("allMemScan", ((memScanEvents inputData pattern).length : Int)),
       ("hyperScan", if hsOk then (hsMatches : Int) else 0),
       ("rookieScan", ((rookieEvents inputData pattern).length : Int)),
       ("myBMScanMethod", myBMHits inputData pattern),
       ("myScan", 0)] := by
  simp only [runHarness, testFuncArr, List.map_cons, List.map_nil,
    memScanMethod, rookieScanMethod, paraScanMethod, hyperScanMethod,
    myBMHits]
  rw [deliverAll_eq, deliverAll_eq]
  cases hsOk <;> simp

/-- C9: `eventHandler` adds exactly 1 to the counter and returns 0 (never
requesting early termination), whatever match data it receives; hence two runs
delivering the same number of events — at any offsets — produce equal final
counts. -/
theorem eventHandler_uniform_counting :
    (∀ (id frm toOff flags : Nat) (g : Int),
        eventHandler id frm toOff flags g = (g + 1, 0)) ∧
    (∀ (events1 events2 : List Nat) (g : Int),
        events1.length = events2.length →
        deliverAll events1 g = deliverAll events2 g) := by
  constructor
  · intro id frm toOff flags g
    rfl
  · intro events1 events2 g h
    rw [deliverAll_eq, deliverAll_eq, h]

/-- Witness for C9: two event lists of length 2 with different offsets give
equal counts, and one concrete `eventHandler` call. -/
theorem eventHandler_uniform_counting_witness :
    eventHandler 7 3 5 1 10 = (10 + 1, 0) ∧
    deliverAll [5, 9] 0 = deliverAll [100, 200] 0 :=
  ⟨eventHandler_uniform_counting.1 7 3 5 1 10,
   eventHandler_uniform_counting.2 [5, 9] [100, 200] 0 (by decide)⟩

/-- C10: every `tmpHint` increment of `myBMScanMethod` uses the single lane
index `plen - 1`; that index is within the 16-lane array exactly when
`plen ≤ 16` (for a nonempty pattern), so under the precondition `plen ≤ 16`
no lane access is out of bounds. -/
theorem myBM_lane_writes (inputData pattern : List Nat) :
    (∀ idx ∈ myBMWrites inputData pattern, idx = pattern.length - 1) ∧
    (1 ≤ pattern.length →
      (pattern.length - 1 < 16 ↔ pattern.length ≤ 16)) ∧
    (1 ≤ pattern.length → pattern.length ≤ 16 →
      ∀ idx ∈ myBMWrites inputData pattern, idx < 16) := by
  have hw : ∀ idx ∈ myBMWrites inputData pattern, idx = pattern.length - 1 :=
    fun idx h => myBMLoop_mem inputData pattern _ 0 idx h
  refine ⟨hw, fun h1 => by omega, fun h1 h16 idx h => ?_⟩
  have := hw idx h
  omega

/-- Witness for C10 at buffer `"aa"`, pattern `"a"` (lane 0 written twice). -/
theorem myBM_lane_writes_witness :
    0 = ([97] : List Nat).length - 1 ∧
    (([97] : List Nat).length - 1 < 16 ↔ ([97] : List Nat).length ≤ 16) ∧
    0 < 16 :=
  ⟨(myBM_lane_writes [97, 97] [97]).1 0 (by decide),
   (myBM_lane_writes [97, 97] [97]).2.1 (by decide),
   (myBM_lane_writes [97, 97] [97]).2.2 (by decide) (by decide) 0 (by decide)⟩

end Simplegrep
